import Mathlib

/-!
Verification of the committee scheduler API (go/scheduler/api/api.go).

The Go source is shallowly embedded: machine integers become `Nat`
(all quantities involved are non-negative and the source never relies on
wrap-around), fallible functions return `Except`, and the Go runtime
panic on `%` by zero is modelled as an explicit error constructor that
we then prove unreachable.
-/

/-- `Role` is the role a given node plays in a committee (Go `uint8`). -/
abbrev Role := Nat

/-- RoleInvalid is an invalid role (should never appear on the wire). -/
def RoleInvalid : Role := 0

/-- RoleWorker indicates the node is a worker. -/
def RoleWorker : Role := 1

/-- RoleBackupWorker indicates the node is a backup worker. -/
def RoleBackupWorker : Role := 2

def RoleInvalidName : String := "invalid"

def RoleWorkerName : String := "worker"

def RoleBackupWorkerName : String := "backup-worker"

/-- MarshalText encodes a Role into text form (text as `String`). -/
def Role.MarshalText (r : Role) : Except String String :=
  if r = RoleInvalid then .ok RoleInvalidName
  else if r = RoleWorker then .ok RoleWorkerName
  else if r = RoleBackupWorker then .ok RoleBackupWorkerName
  else .error ("invalid role: " ++ toString r)

/-- UnmarshalText decodes a text slice into a Role. -/
def Role.UnmarshalText (text : String) : Except String Role :=
  if text = RoleWorkerName then .ok RoleWorker
  else if text = RoleBackupWorkerName then .ok RoleBackupWorker
  else .error ("invalid role: " ++ text)

/-- `CommitteeKind` is the functionality a committee exists to provide (Go `uint8`). -/
abbrev CommitteeKind := Nat

/-- KindInvalid is an invalid committee. -/
def KindInvalid : CommitteeKind := 0

/-- KindComputeExecutor is an executor committee. -/
def KindComputeExecutor : CommitteeKind := 1

def KindInvalidName : String := "invalid"

def KindComputeExecutorName : String := "executor"

/-- MarshalText encodes a CommitteeKind into text form. -/
def CommitteeKind.MarshalText (k : CommitteeKind) : Except String String :=
  if k = KindInvalid then .ok KindInvalidName
  else if k = KindComputeExecutor then .ok KindComputeExecutorName
  else .error ("invalid role: " ++ toString k)

/-- UnmarshalText decodes a text slice into a CommitteeKind. -/
def CommitteeKind.UnmarshalText (text : String) : Except String CommitteeKind :=
  if text = KindComputeExecutorName then .ok KindComputeExecutor
  else .error ("invalid role: " ++ text)

/-- CommitteeNode is a node participating in a committee.  The public key
(an opaque 32-byte value in the source) is modelled as a `Nat`. -/
structure CommitteeNode where
  Role : Role
  PublicKey : Nat
  deriving DecidableEq, Repr

/-- Committee is a per-runtime (instance) committee.  `RuntimeID` (an
opaque namespace value) and `ValidFor` (an epoch number, `uint64`) are
modelled as `Nat`. -/
structure Committee where
  Kind : CommitteeKind
  Members : List CommitteeNode
  RuntimeID : Nat
  ValidFor : Nat
  deriving DecidableEq, Repr

/-- Errors of the scheduler-index computation.  `noWorkers` is the
`fmt.Errorf("no workers in committee")` value; `divisionByZero` models
the Go runtime panic raised by evaluating `round % total` with
`total == 0`; `indexOutOfRange` models the Go runtime panic raised by
indexing `c.Members[idx]` out of range. -/
inductive SchedulerError where
  | noWorkers
  | divisionByZero
  | indexOutOfRange
  deriving DecidableEq, Repr

/-- The first loop of `TransactionSchedulerIdx`: count the members whose
role is `RoleWorker`. -/
def countWorkers (members : List CommitteeNode) : Nat :=
  members.countP (fun m => m.Role == RoleWorker)

/-- The second loop of `TransactionSchedulerIdx`: walk the members,
skipping non-workers; at each worker compare the running worker counter
with `round % total` (evaluating the modulo there, exactly as the Go
source does, hence the zero-divisor guard) and return the member index
on a match.  `.ok none` is falling off the end of the loop. -/
def findSchedulerIdx :
    List CommitteeNode → Nat → Nat → Nat → Nat → Except SchedulerError (Option Nat)
  | [], _, _, _, _ => .ok none
  | m :: rest, round, total, idx, worker =>
    if m.Role = RoleWorker then
      if total = 0 then .error .divisionByZero
      else if worker = round % total then .ok (some idx)
      else findSchedulerIdx rest round total (idx + 1) (worker + 1)
    else findSchedulerIdx rest round total (idx + 1) worker

/-- TransactionSchedulerIdx returns the index of the transaction
scheduler within the committee for the provided round. -/
def Committee.TransactionSchedulerIdx (c : Committee) (round : Nat) :
    Except SchedulerError Nat :=
  let total := countWorkers c.Members
  match findSchedulerIdx c.Members round total 0 0 with
  | .ok (some idx) => .ok idx
  | .ok none => .error .noWorkers
  | .error e => .error e

/-- TransactionScheduler returns the transaction scheduler of the
committee based on the provided round. -/
def Committee.TransactionScheduler (c : Committee) (round : Nat) :
    Except SchedulerError CommitteeNode :=
  match c.TransactionSchedulerIdx round with
  | .error e => .error e
  | .ok idx =>
    match c.Members[idx]? with
    | some m => .ok m
    | none => .error .indexOutOfRange

/-- The list of indices into `members` (counting from `idx`) whose member
has role `RoleWorker`, in order.  This is the specification-side view of
the worker round-robin. -/
def workerIndicesFrom (idx : Nat) : List CommitteeNode → List Nat
  | [] => []
  | m :: rest =>
    if m.Role = RoleWorker then idx :: workerIndicesFrom (idx + 1) rest
    else workerIndicesFrom (idx + 1) rest

/-- The positions of the worker members of `members`, in order. -/
def workerIndices (members : List CommitteeNode) : List Nat :=
  workerIndicesFrom 0 members

/-- Modelled from the spec: `hash.NewFrom` (the `common/crypto/hash`
package, not under the provided sources) computes a cryptographic digest
over the CBOR encoding of the Members sequence in its stored order, so
that two distinct member sequences get distinct digests; modelled as the
encoded sequence itself, an injective function of the sequence. -/
def hashNewFrom (members : List CommitteeNode) : List (Nat × Nat) :=
  members.map (fun m => (m.Role, m.PublicKey))

/-- EncodedMembersHash returns the encoded cryptographic hash of the
committee members. -/
def Committee.EncodedMembersHash (c : Committee) : List (Nat × Nat) :=
  hashNewFrom c.Members

/-- Errors of the stake-to-voting-power conversion.  `divisionByZero` is
the `quantity` package division-by-zero error surfaced by `Quo`;
`overflow` is the "too many base units to convert to power" error. -/
inductive VotingPowerError where
  | divisionByZero
  | overflow
  deriving DecidableEq, Repr

/-- BaseUnitsPerVotingPower is the ratio of base units staked to
validator power; the package `init` sets it to 16. -/
def BaseUnitsPerVotingPower : Nat := 16

/-- `quantity.Quantity.Quo`: checked exact (floor) division of
non-negative arbitrary-precision integers; fails if the divisor is
zero. -/
def quantityQuo (a b : Nat) : Except VotingPowerError Nat :=
  if b = 0 then .error .divisionByZero else .ok (a / b)

/-- `big.Int.IsInt64` on a non-negative value: the value fits in a
signed 64-bit integer. -/
def isInt64 (q : Nat) : Bool :=
  (q : Int) ≤ 2 ^ 63 - 1 && -(2 ^ 63) ≤ (q : Int)

/-- VotingPowerFromStake with the divisor passed explicitly (the Go
function reads the package-level `BaseUnitsPerVotingPower`; here the
global is an argument).  Quantities are non-negative arbitrary-precision
integers, i.e. `Nat`; the `int64` result is modelled as `Int`. -/
def votingPowerFromStakeWithUnit (t unit : Nat) : Except VotingPowerError Int :=
  match quantityQuo t unit with
  | .error e => .error e
  | .ok powerQ =>
    if powerQ = 0 then .ok 1
    else if ! isInt64 powerQ then .error .overflow
    else .ok (powerQ : Int)

/-- VotingPowerFromStake computes the voting power by dividing the stake
by `BaseUnitsPerVotingPower`. -/
def VotingPowerFromStake (t : Nat) : Except VotingPowerError Int :=
  votingPowerFromStakeWithUnit t BaseUnitsPerVotingPower

/-- ForceElectCommitteeRole is the committee kind/role that a
force-elected node is elected as. -/
structure ForceElectCommitteeRole where
  Kind : CommitteeKind
  Roles : List Role
  IsScheduler : Bool
  deriving DecidableEq, Repr

/-- ConsensusParameters are the scheduler consensus parameters.  Go
`int` fields are modelled as `Int`; the `RewardFactorEpochElectionAny`
quantity as `Nat`; the nested `DebugForceElect` map as an association
list keyed by the (opaque, `Nat`-modelled) namespace and public key. -/
structure ConsensusParameters where
  MinValidators : Int
  MaxValidators : Int
  MaxValidatorsPerEntity : Int
  DebugBypassStake : Bool
  RewardFactorEpochElectionAny : Nat
  DebugForceElect : List (Nat × List (Nat × ForceElectCommitteeRole))
  DebugAllowWeakAlpha : Bool
  deriving DecidableEq, Repr

/-- ConsensusParameterChanges are allowed scheduler consensus parameter
changes (Go `*int` fields become `Option Int`). -/
structure ConsensusParameterChanges where
  MinValidators : Option Int
  MaxValidators : Option Int
  deriving DecidableEq, Repr

/-- Apply applies changes to the given consensus parameters.  The Go
method mutates `params` in place and returns an error; here it returns
the updated parameters alongside the (never-occurring) error. -/
def ConsensusParameterChanges.Apply (c : ConsensusParameterChanges)
    (params : ConsensusParameters) : Except String ConsensusParameters :=
  let params :=
    match c.MinValidators with
    | some v => { params with MinValidators := v }
    | none => params
  let params :=
    match c.MaxValidators with
    | some v => { params with MaxValidators := v }
    | none => params
  .ok params

/-- The worker node A of the end-to-end example committee. -/
def exNodeA : CommitteeNode := ⟨RoleWorker, 1⟩

/-- The backup-worker node B of the end-to-end example committee. -/
def exNodeB : CommitteeNode := ⟨RoleBackupWorker, 2⟩

/-- The worker node C of the end-to-end example committee. -/
def exNodeC : CommitteeNode := ⟨RoleWorker, 3⟩

/-- The end-to-end example committee [(Worker,A), (BackupWorker,B), (Worker,C)]. -/
def exampleCommittee : Committee := ⟨KindComputeExecutor, [exNodeA, exNodeB, exNodeC], 0, 0⟩

/-- A committee holding two distinct worker members in one order. -/
def hashCommittee1 : Committee := ⟨KindComputeExecutor, [⟨RoleWorker, 1⟩, ⟨RoleWorker, 2⟩], 0, 0⟩

/-- The committee holding the same two members in the other order. -/
def hashCommittee2 : Committee := ⟨KindComputeExecutor, [⟨RoleWorker, 2⟩, ⟨RoleWorker, 1⟩], 0, 0⟩

/-- A committee with a single backup worker and no workers. -/
def backupOnlyCommittee : Committee := ⟨KindComputeExecutor, [⟨RoleBackupWorker, 2⟩], 0, 0⟩

/-! Helper lemmas about the worker count and the scheduler loop. -/

theorem countWorkers_nil : countWorkers [] = 0 := rfl

theorem countWorkers_cons (m : CommitteeNode) (rest : List CommitteeNode) :
    countWorkers (m :: rest)
      = countWorkers rest + (if m.Role = RoleWorker then 1 else 0) := by
  simp [countWorkers, List.countP_cons]

theorem workerIndicesFrom_length (members : List CommitteeNode) :
    ∀ idx, (workerIndicesFrom idx members).length = countWorkers members := by
  induction members with
  | nil => intro idx; rfl
  | cons m rest ih =>
    intro idx
    by_cases hm : m.Role = RoleWorker <;>
      simp [workerIndicesFrom, hm, countWorkers_cons, ih]

theorem workerIndices_length (members : List CommitteeNode) :
    (workerIndices members).length = countWorkers members :=
  workerIndicesFrom_length members 0

theorem findSchedulerIdx_eq (round total : Nat) (ht : total ≠ 0) :
    ∀ (members : List CommitteeNode) (idx w : Nat), w ≤ round % total →
      findSchedulerIdx members round total idx w
        = .ok ((workerIndicesFrom idx members)[round % total - w]?) := by
  intro members
  induction members with
  | nil => intro idx w _; simp [findSchedulerIdx, workerIndicesFrom]
  | cons m rest ih =>
    intro idx w hw
    by_cases hm : m.Role = RoleWorker
    · by_cases hweq : w = round % total
      · simp only [findSchedulerIdx, if_pos hm, if_neg ht, if_pos hweq]
        simp [workerIndicesFrom, hm, hweq]
      · simp only [findSchedulerIdx, if_pos hm, if_neg ht, if_neg hweq]
        rw [ih (idx + 1) (w + 1) (by omega)]
        have hidx : round % total - w = (round % total - (w + 1)) + 1 := by omega
        simp [workerIndicesFrom, hm, hidx]
    · simp only [findSchedulerIdx, if_neg hm]
      rw [ih (idx + 1) w hw]
      simp [workerIndicesFrom, hm]

theorem findSchedulerIdx_no_workers (round total : Nat) :
    ∀ (members : List CommitteeNode) (idx w : Nat), countWorkers members = 0 →
      findSchedulerIdx members round total idx w = .ok none := by
  intro members
  induction members with
  | nil => intro idx w _; rfl
  | cons m rest ih =>
    intro idx w h
    rw [countWorkers_cons] at h
    have hm : ¬ m.Role = RoleWorker := by
      intro hc
      rw [if_pos hc] at h
      omega
    rw [if_neg hm] at h
    simp only [findSchedulerIdx, if_neg hm]
    exact ih (idx + 1) w (by omega)

theorem workerIndicesFrom_getElem? :
    ∀ (members : List CommitteeNode) (idx t j : Nat),
      (workerIndicesFrom idx members)[t]? = some j →
      ∃ k m, members[k]? = some m ∧ m.Role = RoleWorker ∧ j = idx + k := by
  intro members
  induction members with
  | nil => intro idx t j h; simp [workerIndicesFrom] at h
  | cons m rest ih =>
    intro idx t j h
    by_cases hm : m.Role = RoleWorker
    · rw [workerIndicesFrom, if_pos hm] at h
      cases t with
      | zero =>
        simp at h
        exact ⟨0, m, by simp, hm, by omega⟩
      | succ t =>
        rw [List.getElem?_cons_succ] at h
        obtain ⟨k, m2, hk, hrole, hj⟩ := ih (idx + 1) t j h
        exact ⟨k + 1, m2, by simpa using hk, hrole, by omega⟩
    · rw [workerIndicesFrom, if_neg hm] at h
      obtain ⟨k, m2, hk, hrole, hj⟩ := ih (idx + 1) t j h
      exact ⟨k + 1, m2, by simpa using hk, hrole, by omega⟩

theorem schedulerIdx_eq_get (c : Committee) (round : Nat)
    (h0 : countWorkers c.Members ≠ 0) :
    c.TransactionSchedulerIdx round
      = .ok ((workerIndices c.Members).get
          ⟨round % countWorkers c.Members, by
            rw [workerIndices_length]
            exact Nat.mod_lt _ (Nat.pos_of_ne_zero h0)⟩) := by
  have hfind := findSchedulerIdx_eq round (countWorkers c.Members) h0 c.Members 0 0
    (Nat.zero_le _)
  rw [Nat.sub_zero] at hfind
  have hfind2 : findSchedulerIdx c.Members round (countWorkers c.Members) 0 0
      = .ok ((workerIndices c.Members)[round % countWorkers c.Members]?) := hfind
  have hb : round % countWorkers c.Members < (workerIndices c.Members).length := by
    rw [workerIndices_length]
    exact Nat.mod_lt _ (Nat.pos_of_ne_zero h0)
  have hsome : (workerIndices c.Members)[round % countWorkers c.Members]?
      = some ((workerIndices c.Members).get ⟨round % countWorkers c.Members, hb⟩) := by
    rw [List.getElem?_eq_getElem hb]
    simp [List.get_eq_getElem]
  simp only [Committee.TransactionSchedulerIdx]
  rw [hfind2, hsome]

theorem schedulerIdx_eq_some (c : Committee) (round i : Nat)
    (h0 : countWorkers c.Members ≠ 0)
    (hi : (workerIndices c.Members)[round % countWorkers c.Members]? = some i) :
    c.TransactionSchedulerIdx round = .ok i := by
  have hfind := findSchedulerIdx_eq round (countWorkers c.Members) h0 c.Members 0 0
    (Nat.zero_le _)
  rw [Nat.sub_zero] at hfind
  have hfind2 : findSchedulerIdx c.Members round (countWorkers c.Members) 0 0
      = .ok ((workerIndices c.Members)[round % countWorkers c.Members]?) := hfind
  rw [hi] at hfind2
  simp only [Committee.TransactionSchedulerIdx]
  rw [hfind2]

theorem schedulerIdx_map_range (c : Committee) (h0 : countWorkers c.Members ≠ 0) :
    (List.range (2 * countWorkers c.Members)).map c.TransactionSchedulerIdx
      = (workerIndices c.Members ++ workerIndices c.Members).map Except.ok := by
  have hlen := workerIndices_length c.Members
  apply List.ext_getElem?_iff.mpr
  intro n
  rw [List.getElem?_map, List.getElem?_map, List.getElem?_append]
  by_cases hn : n < 2 * countWorkers c.Members
  · rw [List.getElem?_range hn]
    by_cases hn1 : n < countWorkers c.Members
    · have hb : n < (workerIndices c.Members).length := by omega
      rw [if_pos hb, List.getElem?_eq_getElem hb]
      have hi : (workerIndices c.Members)[n % countWorkers c.Members]?
          = some ((workerIndices c.Members).get ⟨n, hb⟩) := by
        rw [Nat.mod_eq_of_lt hn1, List.getElem?_eq_getElem hb]
        simp [List.get_eq_getElem]
      simp [schedulerIdx_eq_some c n _ h0 hi]
    · have hb : ¬ n < (workerIndices c.Members).length := by omega
      rw [if_neg hb]
      have hb2 : n - (workerIndices c.Members).length < (workerIndices c.Members).length := by
        omega
      rw [List.getElem?_eq_getElem hb2]
      have hmod : n % countWorkers c.Members = n - (workerIndices c.Members).length := by
        rw [Nat.mod_eq_sub_mod (by omega), Nat.mod_eq_of_lt (by omega), hlen]
      have hi : (workerIndices c.Members)[n % countWorkers c.Members]?
          = some ((workerIndices c.Members).get ⟨n - (workerIndices c.Members).length, hb2⟩) := by
        rw [hmod, List.getElem?_eq_getElem hb2]
        simp [List.get_eq_getElem]
      simp [schedulerIdx_eq_some c n _ h0 hi]
  · have h1 : (List.range (2 * countWorkers c.Members))[n]? = none := by
      apply List.getElem?_eq_none
      simpa using by omega
    have hb : ¬ n < (workerIndices c.Members).length := by omega
    rw [if_neg hb, h1]
    have h2 : (workerIndices c.Members)[n - (workerIndices c.Members).length]? = none := by
      apply List.getElem?_eq_none
      omega
    rw [h2]
    rfl

/-- Claim C4: for every Committee whose Members contain zero nodes with
Role == Worker (including an empty Members sequence) and for every
round, TransactionSchedulerIdx fails with the no-workers error and
returns no valid index. -/
theorem Committee.transactionSchedulerIdx_noWorkers (c : Committee) (round : Nat)
    (h : countWorkers c.Members = 0) :
    c.TransactionSchedulerIdx round = .error .noWorkers := by
  simp only [Committee.TransactionSchedulerIdx]
  rw [findSchedulerIdx_no_workers round (countWorkers c.Members) c.Members 0 0 h]

/-- Witness for claim C4: a committee holding a single backup worker
fails at round 7. -/
theorem Committee.transactionSchedulerIdx_noWorkers_witness :
    backupOnlyCommittee.TransactionSchedulerIdx 7 = .error .noWorkers :=
  Committee.transactionSchedulerIdx_noWorkers backupOnlyCommittee 7 (by decide)

/-- Claim C9: TransactionSchedulerIdx is total: for every Committee and
round it returns either a valid index into Members or the no-workers
error, and never the division-by-zero failure, because the modulo
expression is only reached at a Worker member, which implies the worker
total is at least one. -/
theorem Committee.transactionSchedulerIdx_total_safe (c : Committee) (round : Nat) :
    ((∃ i, c.TransactionSchedulerIdx round = .ok i ∧ i < c.Members.length)
      ∨ c.TransactionSchedulerIdx round = .error .noWorkers)
    ∧ c.TransactionSchedulerIdx round ≠ .error .divisionByZero := by
  by_cases h0 : countWorkers c.Members = 0
  · have herr : c.TransactionSchedulerIdx round = .error .noWorkers := by
      simp only [Committee.TransactionSchedulerIdx]
      rw [findSchedulerIdx_no_workers round (countWorkers c.Members) c.Members 0 0 h0]
    refine ⟨.inr herr, ?_⟩
    rw [herr]
    simp
  · have hb : round % countWorkers c.Members < (workerIndices c.Members).length := by
      rw [workerIndices_length]
      exact Nat.mod_lt _ (Nat.pos_of_ne_zero h0)
    have hi : (workerIndices c.Members)[round % countWorkers c.Members]?
        = some ((workerIndices c.Members).get ⟨round % countWorkers c.Members, hb⟩) :=
      List.getElem?_eq_getElem hb
    obtain ⟨k, m, hk, hrole, hj⟩ := workerIndicesFrom_getElem? c.Members 0 _ _ hi
    have hok := schedulerIdx_eq_some c round _ h0 hi
    have hklen : k < c.Members.length := by
      by_contra hc
      rw [List.getElem?_eq_none (by omega)] at hk
      exact Option.noConfusion hk
    refine ⟨.inl ⟨_, hok, by omega⟩, ?_⟩
    rw [hok]
    simp

/-- Claim C1: for every Committee with at least one Worker member and
every round, TransactionSchedulerIdx returns the index into Members of
the (round mod total)-th Worker member counted in Members order; the
result is periodic in round with period total, and over rounds
0..2*total-1 each worker index is returned exactly twice, in committee
order. -/
theorem Committee.transactionSchedulerIdx_rotation (c : Committee) (round : Nat)
    (h : 1 ≤ countWorkers c.Members) :
    (∃ i, c.TransactionSchedulerIdx round = .ok i
        ∧ (workerIndices c.Members)[round % countWorkers c.Members]? = some i)
    ∧ c.TransactionSchedulerIdx (round + countWorkers c.Members)
        = c.TransactionSchedulerIdx round
    ∧ (List.range (2 * countWorkers c.Members)).map c.TransactionSchedulerIdx
        = (workerIndices c.Members ++ workerIndices c.Members).map Except.ok := by
  have h0 : countWorkers c.Members ≠ 0 := by omega
  have hb : round % countWorkers c.Members < (workerIndices c.Members).length := by
    rw [workerIndices_length]
    exact Nat.mod_lt _ (by omega)
  have hi : (workerIndices c.Members)[round % countWorkers c.Members]?
      = some ((workerIndices c.Members).get ⟨round % countWorkers c.Members, hb⟩) :=
    List.getElem?_eq_getElem hb
  refine ⟨⟨_, schedulerIdx_eq_some c round _ h0 hi, hi⟩, ?_, schedulerIdx_map_range c h0⟩
  have hmod : (round + countWorkers c.Members) % countWorkers c.Members
      = round % countWorkers c.Members := Nat.add_mod_right _ _
  rw [schedulerIdx_eq_some c round _ h0 hi,
    schedulerIdx_eq_some c (round + countWorkers c.Members) _ h0 (by rw [hmod]; exact hi)]

/-- Witness for claim C1: the rotation theorem applied to the
three-member example committee at round 1. -/
theorem Committee.transactionSchedulerIdx_rotation_witness :
    (∃ i, exampleCommittee.TransactionSchedulerIdx 1 = .ok i
        ∧ (workerIndices exampleCommittee.Members)[1 % countWorkers exampleCommittee.Members]?
            = some i)
    ∧ exampleCommittee.TransactionSchedulerIdx (1 + countWorkers exampleCommittee.Members)
        = exampleCommittee.TransactionSchedulerIdx 1
    ∧ (List.range (2 * countWorkers exampleCommittee.Members)).map
          exampleCommittee.TransactionSchedulerIdx
        = (workerIndices exampleCommittee.Members
            ++ workerIndices exampleCommittee.Members).map Except.ok :=
  Committee.transactionSchedulerIdx_rotation exampleCommittee 1 (by decide)

/-- Claim C5: for every Committee with at least one Worker member and
every round, TransactionScheduler succeeds and the returned node has
Role == Worker; a BackupWorker or Invalid member is never selected.  In
particular, on the committee [(Worker,A), (BackupWorker,B), (Worker,C)]
round 0 selects A, round 1 selects C, and round 2 selects A. -/
theorem Committee.transactionScheduler_selects_worker (c : Committee) (round : Nat)
    (h : 1 ≤ countWorkers c.Members) :
    (∃ n, c.TransactionScheduler round = .ok n ∧ n.Role = RoleWorker)
    ∧ exampleCommittee.TransactionScheduler 0 = .ok exNodeA
    ∧ exampleCommittee.TransactionScheduler 1 = .ok exNodeC
    ∧ exampleCommittee.TransactionScheduler 2 = .ok exNodeA := by
  refine ⟨?_, rfl, rfl, rfl⟩
  have h0 : countWorkers c.Members ≠ 0 := by omega
  have hb : round % countWorkers c.Members < (workerIndices c.Members).length := by
    rw [workerIndices_length]
    exact Nat.mod_lt _ (by omega)
  have hi : (workerIndices c.Members)[round % countWorkers c.Members]?
      = some ((workerIndices c.Members).get ⟨round % countWorkers c.Members, hb⟩) :=
    List.getElem?_eq_getElem hb
  obtain ⟨k, m, hk, hrole, hj⟩ := workerIndicesFrom_getElem? c.Members 0 _ _ hi
  have hok := schedulerIdx_eq_some c round _ h0 hi
  refine ⟨m, ?_, hrole⟩
  have hmem : c.Members[(workerIndices c.Members).get
      ⟨round % countWorkers c.Members, hb⟩]? = some m := by
    rw [hj]
    simpa using hk
  simp only [Committee.TransactionScheduler, hok, hmem]

/-- Witness for claim C5: the theorem applied to the example committee
at round 0. -/
theorem Committee.transactionScheduler_selects_worker_witness :
    (∃ n, exampleCommittee.TransactionScheduler 0 = .ok n ∧ n.Role = RoleWorker)
    ∧ exampleCommittee.TransactionScheduler 0 = .ok exNodeA
    ∧ exampleCommittee.TransactionScheduler 1 = .ok exNodeC
    ∧ exampleCommittee.TransactionScheduler 2 = .ok exNodeA :=
  Committee.transactionScheduler_selects_worker exampleCommittee 0 (by decide)

theorem isInt64_iff (q : Nat) : isInt64 q = true ↔ q ≤ 2 ^ 63 - 1 := by
  have h1 : ((2 : Int) ^ 63 - 1) = 9223372036854775807 := by norm_num
  have h2 : ((2 : Nat) ^ 63 - 1) = 9223372036854775807 := by norm_num
  have h3 : (-((2 : Int) ^ 63)) = -9223372036854775808 := by norm_num
  rw [isInt64, Bool.and_eq_true, decide_eq_true_eq, decide_eq_true_eq, h1, h2, h3]
  omega

/-- Claim C2: VotingPowerFromStake computes q = floor(stake / unit);
with a zero unit it fails with the division error, with q == 0 it
returns 1, with q outside the signed 64-bit range it fails with the
overflow error, and otherwise it returns q.  In particular the stakes
0, 5 and 160 (at the fixed unit 16) give powers 1, 1 and 10, and stake
2^70 at unit 1 overflows. -/
theorem votingPowerFromStake_spec (stake unit : Nat) :
    (unit = 0 → votingPowerFromStakeWithUnit stake unit = .error .divisionByZero)
    ∧ (unit ≠ 0 → stake / unit = 0 →
        votingPowerFromStakeWithUnit stake unit = .ok 1)
    ∧ (unit ≠ 0 → 2 ^ 63 - 1 < stake / unit →
        votingPowerFromStakeWithUnit stake unit = .error .overflow)
    ∧ (unit ≠ 0 → stake / unit ≠ 0 → stake / unit ≤ 2 ^ 63 - 1 →
        votingPowerFromStakeWithUnit stake unit = .ok ((stake / unit : Nat) : Int))
    ∧ VotingPowerFromStake 0 = .ok 1
    ∧ VotingPowerFromStake 5 = .ok 1
    ∧ VotingPowerFromStake 160 = .ok 10
    ∧ votingPowerFromStakeWithUnit (2 ^ 70) 1 = .error .overflow := by
  refine ⟨?_, ?_, ?_, ?_, rfl, rfl, rfl, rfl⟩
  · intro h
    simp [votingPowerFromStakeWithUnit, quantityQuo, h]
  · intro h hq
    simp [votingPowerFromStakeWithUnit, quantityQuo, h, hq]
  · intro h hq
    have h1 : stake / unit ≠ 0 := by
      have : (1 : Nat) ≤ 2 ^ 63 - 1 := by norm_num
      omega
    have h2 : isInt64 (stake / unit) = false := by
      rw [← Bool.not_eq_true, isInt64_iff]
      omega
    simp [votingPowerFromStakeWithUnit, quantityQuo, h, h1, h2]
  · intro h h1 h2
    have h3 : isInt64 (stake / unit) = true := (isInt64_iff _).mpr h2
    simp [votingPowerFromStakeWithUnit, quantityQuo, h, h1, h3]

/-- Witness for claim C2: the division-error clause applied at stake 7,
unit 0. -/
theorem votingPowerFromStake_spec_witness :
    votingPowerFromStakeWithUnit 7 0 = .error .divisionByZero :=
  (votingPowerFromStake_spec 7 0).1 rfl

/-- Claim C10: whenever VotingPowerFromStake succeeds, the returned
voting power is at least 1, never zero or negative: a zero quotient is
mapped to 1 and any larger quotient that fits in a signed 64-bit
integer is positive. -/
theorem votingPowerFromStake_ge_one (stake : Nat) (p : Int)
    (h : VotingPowerFromStake stake = .ok p) : 1 ≤ p := by
  rw [VotingPowerFromStake, BaseUnitsPerVotingPower] at h
  by_cases hq : stake / 16 = 0
  · simp [votingPowerFromStakeWithUnit, quantityQuo, hq] at h
    omega
  · by_cases hI : isInt64 (stake / 16) = true
    · simp [votingPowerFromStakeWithUnit, quantityQuo, hq, hI] at h
      have h1 : 1 ≤ stake / 16 := by omega
      omega
    · simp [votingPowerFromStakeWithUnit, quantityQuo, hq, hI] at h

/-- Witness for claim C10: stake 160 converts to power 10, which is at
least 1. -/
theorem votingPowerFromStake_ge_one_witness : (1 : Int) ≤ 10 :=
  votingPowerFromStake_ge_one 160 10 rfl

/-- Counterexample for claim C3: MarshalText of the Invalid role (and
the Invalid kind) succeeds with the text "invalid", yet UnmarshalText
rejects that text, so encode/decode are not mutual inverses on the
defined value Invalid. -/
theorem role_text_roundtrip_cex :
    Role.MarshalText RoleInvalid = .ok "invalid"
    ∧ Role.UnmarshalText "invalid" = .error "invalid role: invalid"
    ∧ CommitteeKind.MarshalText KindInvalid = .ok "invalid"
    ∧ CommitteeKind.UnmarshalText "invalid" = .error "invalid role: invalid" :=
  ⟨rfl, rfl, rfl, rfl⟩

/-- Claim C3 (amended): for the Worker and BackupWorker roles and the
ComputeExecutor kind, MarshalText succeeds and UnmarshalText applied to
the marshalled text returns the original value; UnmarshalText applied
to any other string — including "invalid", the marshalled text of the
Invalid role and kind — fails with an error rather than producing a
default value. -/
theorem role_kind_text_roundtrip (s : String) :
    (Role.MarshalText RoleWorker = .ok RoleWorkerName
      ∧ Role.UnmarshalText RoleWorkerName = .ok RoleWorker)
    ∧ (Role.MarshalText RoleBackupWorker = .ok RoleBackupWorkerName
      ∧ Role.UnmarshalText RoleBackupWorkerName = .ok RoleBackupWorker)
    ∧ (CommitteeKind.MarshalText KindComputeExecutor = .ok KindComputeExecutorName
      ∧ CommitteeKind.UnmarshalText KindComputeExecutorName = .ok KindComputeExecutor)
    ∧ (s ≠ RoleWorkerName → s ≠ RoleBackupWorkerName →
        Role.UnmarshalText s = .error ("invalid role: " ++ s))
    ∧ (s ≠ KindComputeExecutorName →
        CommitteeKind.UnmarshalText s = .error ("invalid role: " ++ s)) := by
  refine ⟨⟨rfl, rfl⟩, ⟨rfl, rfl⟩, ⟨rfl, rfl⟩, ?_, ?_⟩
  · intro h1 h2
    rw [Role.UnmarshalText, if_neg h1, if_neg h2]
  · intro h1
    rw [CommitteeKind.UnmarshalText, if_neg h1]

/-- Witness for claim C3 (amended): the rejection clause applied to the
string "invalid". -/
theorem role_kind_text_roundtrip_witness :
    Role.UnmarshalText "invalid" = .error ("invalid role: " ++ "invalid") :=
  (role_kind_text_roundtrip "invalid").2.2.2.1 (by decide) (by decide)

/-- Claim C6: EncodedMembersHash is a deterministic function of the
Members sequence in its stored order: identical member sequences give
equal hashes, and the same member set arranged in a different order
gives a different hash. -/
theorem Committee.encodedMembersHash_order (c1 c2 : Committee) :
    (c1.Members = c2.Members → c1.EncodedMembersHash = c2.EncodedMembersHash)
    ∧ (c1.Members.Perm c2.Members → c1.Members ≠ c2.Members →
        c1.EncodedMembersHash ≠ c2.EncodedMembersHash) := by
  constructor
  · intro h
    simp [Committee.EncodedMembersHash, hashNewFrom, h]
  · intro _ hne heq
    apply hne
    have hinj : Function.Injective (fun m : CommitteeNode => ((m.Role, m.PublicKey) : Nat × Nat)) := by
      intro a b hab
      cases a
      cases b
      simpa using hab
    simp only [Committee.EncodedMembersHash, hashNewFrom] at heq
    exact List.map_injective_iff.mpr hinj heq

/-- Witness for claim C6: the two-member committees holding the same
members in opposite orders have different hashes. -/
theorem Committee.encodedMembersHash_order_witness :
    hashCommittee1.EncodedMembersHash ≠ hashCommittee2.EncodedMembersHash :=
  (Committee.encodedMembersHash_order hashCommittee1 hashCommittee2).2
    (by decide) (by decide)

/-- Claim C7: Apply overwrites MinValidators exactly when the change
has a MinValidators value and MaxValidators exactly when the change has
a MaxValidators value, leaves an absent field untouched, and leaves
every other ConsensusParameters field unchanged. -/
theorem consensusParameterChanges_apply_frame (params : ConsensusParameters)
    (changes : ConsensusParameterChanges) :
    ∃ p, changes.Apply params = .ok p
      ∧ p.MinValidators = changes.MinValidators.getD params.MinValidators
      ∧ p.MaxValidators = changes.MaxValidators.getD params.MaxValidators
      ∧ p.MaxValidatorsPerEntity = params.MaxValidatorsPerEntity
      ∧ p.DebugBypassStake = params.DebugBypassStake
      ∧ p.RewardFactorEpochElectionAny = params.RewardFactorEpochElectionAny
      ∧ p.DebugForceElect = params.DebugForceElect
      ∧ p.DebugAllowWeakAlpha = params.DebugAllowWeakAlpha := by
  rcases changes with ⟨mn, mx⟩
  cases mn <;> cases mx <;>
    exact ⟨_, rfl, rfl, rfl, rfl, rfl, rfl, rfl, rfl⟩

/-- Claim C8: Apply returns no error for every input, and no
MinValidators <= MaxValidators post-condition is enforced: some change
request makes the stored pair inconsistent yet the call succeeds. -/
theorem consensusParameterChanges_apply_no_error :
    (∀ (params : ConsensusParameters) (changes : ConsensusParameterChanges),
        ∃ p, changes.Apply params = .ok p)
    ∧ (∃ (params : ConsensusParameters) (changes : ConsensusParameterChanges)
          (p : ConsensusParameters),
        changes.Apply params = .ok p ∧ p.MaxValidators < p.MinValidators) := by
  constructor
  · intro params changes
    rcases changes with ⟨mn, mx⟩
    cases mn <;> cases mx <;> exact ⟨_, rfl⟩
  · exact ⟨⟨0, 0, 0, false, 0, [], false⟩, ⟨some 5, some 3⟩, _, rfl, by decide⟩
